import Mathlib

/-!
Verification development for the labeler-app annotation engine.

The definitions below are shallow embeddings of the interactive annotation
core found in `src/renderer/renderer.js` (label store mutations: point
toggling, drag-erase, right-click removal, review/done toggling, auto-save
scheduling, pixel-to-sample conversion) and `src/main/python-bridge.js`
(the correlation-id RPC bridge).  JS arrays of sample indices are modelled
as `List Int` (on the normal path every stored index is `Math.round` of a
finite number); JS timers and promises are modelled as explicit state
transitions.  For the coordinate-conversion safety analysis the relevant
arithmetic is additionally modelled over `JSNum`, which carries the IEEE
special values NaN and the infinities over exact rationals (float rounding
is abstracted to exact rational arithmetic; the facts proved there depend
only on special-value propagation, never on rounding).
-/

namespace Labeler

/-- The four point-label categories, in the fixed enumeration order used by
every scan loop in the source (object key insertion order of
`label_indexes`, and the explicit `labelTypes` arrays). -/
inductive LabelType
  | compression_systolic
  | compression_diastolic
  | spontaneous_systolic
  | spontaneous_diastolic
deriving DecidableEq, Repr

/-- The fixed type-iteration order `['compression_systolic_points',
'compression_diastolic_points', 'spontaneous_systolic_points',
'spontaneous_diastolic_points']` from the source. -/
def labelTypeOrder : List LabelType :=
  [.compression_systolic, .compression_diastolic,
   .spontaneous_systolic, .spontaneous_diastolic]

/-- `const TOLERANCE = 5;` tolerance in samples for peak deletion. -/
def TOLERANCE : Int := 5

/-- `const ERASER_TOLERANCE = 8;` tolerance in samples for eraser mode. -/
def ERASER_TOLERANCE : Int := 8

/-- One segment's label record: the `labeled` and `review` flags and the
four `label_indexes` arrays. -/
structure SegmentLabels where
  labeled : Bool
  review : Bool
  compression_systolic_points : List Int
  compression_diastolic_points : List Int
  spontaneous_systolic_points : List Int
  spontaneous_diastolic_points : List Int
deriving DecidableEq, Repr

/-- Read `label_indexes[t]`. -/
def SegmentLabels.idx (s : SegmentLabels) : LabelType → List Int
  | .compression_systolic => s.compression_systolic_points
  | .compression_diastolic => s.compression_diastolic_points
  | .spontaneous_systolic => s.spontaneous_systolic_points
  | .spontaneous_diastolic => s.spontaneous_diastolic_points

/-- Write `label_indexes[t] = l`. -/
def SegmentLabels.setIdx (s : SegmentLabels) (t : LabelType) (l : List Int) :
    SegmentLabels :=
  match t with
  | .compression_systolic => { s with compression_systolic_points := l }
  | .compression_diastolic => { s with compression_diastolic_points := l }
  | .spontaneous_systolic => { s with spontaneous_systolic_points := l }
  | .spontaneous_diastolic => { s with spontaneous_diastolic_points := l }

/-- The fresh segment record created when `state.labels[segmentId]` is
absent: `labeled:false, review:false`, all four arrays empty. -/
def defaultSegment : SegmentLabels :=
  { labeled := false, review := false
    compression_systolic_points := []
    compression_diastolic_points := []
    spontaneous_systolic_points := []
    spontaneous_diastolic_points := [] }

/-- The nearness test `Math.abs(idx - clickedIndex) <= tol`. -/
def nearTol (tol x idx : Int) : Bool := decide (|idx - x| ≤ tol)

/-- Fused `findIndex` + `splice(nearbyIndex, 1)`: removes the first element
satisfying `p`, or reports `none` when `findIndex` returns `-1`. -/
def removeFirst (p : Int → Bool) : List Int → Option (List Int)
  | [] => none
  | e :: es => if p e then some es else (removeFirst p es).map (e :: ·)

/-- The `for (const labelType ...) { findIndex; splice; break }` scan loop:
visit the label types in order, and at the first type holding an index
within `tol` of `x`, splice that one entry out and stop. -/
def removeScan (tol x : Int) : List LabelType → SegmentLabels →
    Option (LabelType × SegmentLabels)
  | [], _ => none
  | t :: ts, seg =>
    match removeFirst (nearTol tol x) (seg.idx t) with
    | some l => some (t, seg.setIdx t l)
    | none => removeScan tol x ts seg

/-- Embeds `labelArray.sort((a, b) => a - b)`: the ascending sorted
permutation of the array (for integer values this list is unique, so any
sorting algorithm gives the source's result). -/
def sortAsc (l : List Int) : List Int := l.insertionSort (· ≤ ·)

/-- Result of one Normal-mode toggle: the updated record plus which type a
point was removed from, if any (the `foundAndRemoved` path). -/
structure ToggleResult where
  seg : SegmentLabels
  removed : Option LabelType
deriving DecidableEq, Repr

/-- The Normal-mode point toggle from `handleDirectClick`: scan all four
types for an existing index within `TOLERANCE` of the click and splice out
the first match; otherwise push the click index into the currently selected
type and re-sort ascending.  Either way set `labeled = true`. -/
def togglePoint (seg : SegmentLabels) (x : Int) (t : LabelType) : ToggleResult :=
  match removeScan TOLERANCE x labelTypeOrder seg with
  | some (ty, seg1) => ⟨{ seg1 with labeled := true }, some ty⟩
  | none =>
    ⟨{ seg.setIdx t (sortAsc (seg.idx t ++ [x])) with labeled := true }, none⟩

/-- The right-click removal from `handleGraphRightClick`: the same
scan-all-types splice loop; on a removal set `labeled = true`, otherwise
leave the record untouched. -/
def rightClickRemove (seg : SegmentLabels) (x : Int) :
    SegmentLabels × Option LabelType :=
  match removeScan TOLERANCE x labelTypeOrder seg with
  | some (ty, seg1) => ({ seg1 with labeled := true }, some ty)
  | none => (seg, none)

/-- The inner splice loop of `eraseAtPositionNoUpdate` on one array: walk
the array (the source walks backwards so splices do not shift pending
positions) and splice out every entry within `ERASER_TOLERANCE` of the
click, counting the splices. -/
def eraseList (x : Int) : List Int → List Int × Nat
  | [] => ([], 0)
  | e :: es =>
    let r := eraseList x es
    if nearTol ERASER_TOLERANCE x e then (r.1, r.2 + 1) else (e :: r.1, r.2)

/-- One eraser application (`eraseAtPositionNoUpdate` core): erase near `x`
in all four arrays; the returned count is the number of splices performed
(the source records it only as the booleans `anyRemoved` and
`state.eraserModified`).  The `labeled` flag is not touched here. -/
def eraseNear (seg : SegmentLabels) (x : Int) : SegmentLabels × Nat :=
  let c1 := eraseList x seg.compression_systolic_points
  let c2 := eraseList x seg.compression_diastolic_points
  let c3 := eraseList x seg.spontaneous_systolic_points
  let c4 := eraseList x seg.spontaneous_diastolic_points
  ({ seg with
      compression_systolic_points := c1.1
      compression_diastolic_points := c2.1
      spontaneous_systolic_points := c3.1
      spontaneous_diastolic_points := c4.1 },
   c1.2 + c2.2 + c3.2 + c4.2)

/-- A whole eraser drag: `eraseAtPositionNoUpdate` runs at the mouse-down
position and at every move position; the accumulated count is positive iff
`state.eraserModified` was set during the drag. -/
def eraseMany (seg : SegmentLabels) (xs : List Int) : SegmentLabels × Nat :=
  xs.foldl (fun acc x =>
    let r := eraseNear acc.1 x
    (r.1, acc.2 + r.2)) (seg, 0)

/-- The drag followed by `handleEraserMouseUp`: if the drag erased anything
(`state.eraserModified`), set `labeled = true`; otherwise nothing changes. -/
def eraserSweep (seg : SegmentLabels) (xs : List Int) : SegmentLabels :=
  let r := eraseMany seg xs
  if 0 < r.2 then { r.1 with labeled := true } else r.1

/-- The editing-mode flags surrounding the current segment record:
`state.regionSelectionMode`, `state.regionStart`, `state.eraserActive`. -/
structure EditorState where
  regionSelectionMode : Bool
  regionStart : Option Int
  eraserActive : Bool
  seg : SegmentLabels
deriving DecidableEq, Repr

/-- `handleGraphRightClick` at hover index `x`: performs the removal scan on
the current segment record; it reads none of the mode flags and assigns none
of them. -/
def handleRightClick (st : EditorState) (x : Int) : EditorState :=
  { st with seg := (rightClickRemove st.seg x).1 }

/-! ### Auto-save scheduler (`markLabelsDirty` / `scheduleAutoSave` /
`saveIfDirty` in `renderer.js`)

Timers are modelled by ids: `autoSaveTimeout` holds the id of the live
debounce timer, if any.  `clearTimeout` is modelled by the timer id no
longer being the live one, so its firing transition is a no-op. -/

/-- `setTimeout(..., 2000)` debounce delay of the auto-save scheduler. -/
def AUTOSAVE_DEBOUNCE_MS : Nat := 2000

/-- Scheduler state: the dirty flag, whether a file is open
(`state.currentFile`), the live debounce timer id, a fresh-id counter, and
the number of persistence calls (`saveLabels` invocations) made so far. -/
structure SchedState where
  labelsDirty : Bool
  fileOpen : Bool
  autoSaveTimeout : Option Nat
  nextTimerId : Nat
  saveCount : Nat
deriving DecidableEq, Repr

/-- One `saveLabels(false)` call: always counts as a persistence call; on
success the dirty flag clears, on failure it is left set. -/
def doSave (ok : Bool) (st : SchedState) : SchedState :=
  { st with saveCount := st.saveCount + 1
            labelsDirty := if ok then false else st.labelsDirty }

/-- `scheduleAutoSave()`: clear any pending timer and arm a fresh one. -/
def scheduleAutoSave (st : SchedState) : SchedState :=
  { st with autoSaveTimeout := some st.nextTimerId
            nextTimerId := st.nextTimerId + 1 }

/-- `markLabelsDirty()`: set the dirty flag and (re)start the debounce. -/
def markLabelsDirty (st : SchedState) : SchedState :=
  scheduleAutoSave { st with labelsDirty := true }

/-- The debounce timer with id `tid` firing: only a live (uncanceled) timer
runs its callback, which saves silently if still dirty and a file is open. -/
def autoSaveFire (st : SchedState) (tid : Nat) (ok : Bool) : SchedState :=
  if st.autoSaveTimeout = some tid then
    let st1 := { st with autoSaveTimeout := none }
    if st1.labelsDirty && st1.fileOpen then doSave ok st1 else st1
  else st

/-- `saveIfDirty()`: if dirty and a file is open, cancel any pending timer
and save immediately. -/
def saveIfDirty (st : SchedState) (ok : Bool) : SchedState :=
  if st.labelsDirty && st.fileOpen then
    doSave ok { st with autoSaveTimeout := none }
  else st

/-! ### RPC bridge (`python-bridge.js`)

Promise settlement is modelled by an append-only log: each list entry
records one resolve/reject of the promise of the given call id. -/

/-- `setTimeout(..., 30000)` per-call timeout of `call`. -/
def TIMEOUT_MS : Nat := 30000

/-- How a call's promise was settled. -/
inductive Settled
  | resolvedOk
  | rejectedErr
  | rejectedTimeout
deriving DecidableEq, Repr

/-- Bridge state: the `messageId` counter, the key set of the
`pendingCalls` map, and the settlement log. -/
structure BridgeState where
  messageId : Nat
  pending : Finset Nat
  settled : List (Nat × Settled)
deriving DecidableEq

/-- `call(method, params)` after the channel-running guard: allocate
`id = messageId++` and store the resolver pair under `id`. -/
def bridgeCall (st : BridgeState) : BridgeState × Nat :=
  ({ st with messageId := st.messageId + 1
             pending := insert st.messageId st.pending },
   st.messageId)

/-- `handleMessage(message)`: if the id is pending, delete the entry and
settle the promise (reject on `message.error`, else resolve); messages with
unknown or missing ids change nothing. -/
def handleMessage (st : BridgeState) (id : Nat) (isError : Bool) : BridgeState :=
  if id ∈ st.pending then
    { st with pending := st.pending.erase id
              settled := (id, if isError then .rejectedErr else .resolvedOk)
                           :: st.settled }
  else st

/-- The per-call timeout firing for `id`: if the id is still pending,
delete the entry and reject with the timeout error; otherwise do nothing. -/
def fireTimeout (st : BridgeState) (id : Nat) : BridgeState :=
  if id ∈ st.pending then
    { st with pending := st.pending.erase id
              settled := (id, .rejectedTimeout) :: st.settled }
  else st

/-! ### Review / Done toggling (`toggleReview` / `toggleDone` in
`renderer.js`)

Per-file view: `done` is membership of the current file in
`state.doneFiles`; `reviewSegs` is the set of this file's segments whose
record has `review === true` (the file is in the review set iff this set is
nonempty, which is how `updateReviewFilesState` derives it). -/

structure ReviewDoneState where
  done : Bool
  reviewSegs : Finset Nat
deriving DecidableEq

/-- `toggleReview()` on segment `seg`: turning review on while the file is
done is rejected before any mutation (alert and early return); otherwise
the segment's review flag is flipped. -/
def toggleReview (st : ReviewDoneState) (seg : Nat) : ReviewDoneState :=
  if st.done = true ∧ seg ∉ st.reviewSegs then st
  else if seg ∈ st.reviewSegs then
    { st with reviewSegs := st.reviewSegs.erase seg }
  else { st with reviewSegs := insert seg st.reviewSegs }

/-- `toggleDone()`: marking done is rejected while any segment is flagged
for review (alert and early return); unmarking is always accepted. -/
def toggleDone (st : ReviewDoneState) : ReviewDoneState :=
  if st.done = false ∧ st.reviewSegs.Nonempty then st
  else { st with done := !st.done }

/-- One review/done user action. -/
inductive RDOp
  | review (seg : Nat)
  | flipDone
deriving DecidableEq, Repr

/-- Apply a sequence of review/done actions. -/
def applyRDOps (ops : List RDOp) (st : ReviewDoneState) : ReviewDoneState :=
  ops.foldl (fun s op =>
    match op with
    | .review seg => toggleReview s seg
    | .flipDone => toggleDone s) st

/-- A sequence of Normal-mode toggles `(x, t)` applied to one segment. -/
def applyToggles (ops : List (Int × LabelType)) (seg : SegmentLabels) :
    SegmentLabels :=
  ops.foldl (fun s op => (togglePoint s op.1 op.2).seg) seg

/-! ### JS number model for the pixel-to-sample conversion

`JSNum` models an IEEE double as NaN, the two infinities, or an exact
rational.  Only the special-value propagation rules of `+ - * /`,
`Math.abs`, `Math.round` and `isNaN` are needed; float rounding on finite
values is abstracted to exact rational arithmetic (no fact proved below
depends on rounding, and every concrete input used is exactly
representable). -/

inductive JSNum
  | nan
  | posInf
  | negInf
  | num (q : ℚ)
deriving DecidableEq, Repr

namespace JSNum

/-- IEEE negation. -/
def neg : JSNum → JSNum
  | nan => nan
  | posInf => negInf
  | negInf => posInf
  | num q => num (-q)

/-- IEEE addition (NaN propagates; opposite infinities give NaN). -/
def add : JSNum → JSNum → JSNum
  | nan, _ => nan
  | _, nan => nan
  | posInf, negInf => nan
  | negInf, posInf => nan
  | posInf, _ => posInf
  | _, posInf => posInf
  | negInf, _ => negInf
  | _, negInf => negInf
  | num a, num b => num (a + b)

/-- IEEE subtraction. -/
def sub (a b : JSNum) : JSNum := a.add b.neg

/-- IEEE multiplication (NaN propagates; infinity times zero gives NaN). -/
def mul : JSNum → JSNum → JSNum
  | nan, _ => nan
  | _, nan => nan
  | posInf, posInf => posInf
  | posInf, negInf => negInf
  | negInf, posInf => negInf
  | negInf, negInf => posInf
  | posInf, num b => if b = 0 then nan else if 0 < b then posInf else negInf
  | num a, posInf => if a = 0 then nan else if 0 < a then posInf else negInf
  | negInf, num b => if b = 0 then nan else if 0 < b then negInf else posInf
  | num a, negInf => if a = 0 then nan else if 0 < a then negInf else posInf
  | num a, num b => num (a * b)

/-- IEEE division (0/0 and Inf/Inf give NaN; finite nonzero over zero gives
a signed infinity; finite over infinity gives zero; signed zeros are not
distinguished). -/
def div : JSNum → JSNum → JSNum
  | nan, _ => nan
  | _, nan => nan
  | posInf, posInf => nan
  | posInf, negInf => nan
  | negInf, posInf => nan
  | negInf, negInf => nan
  | posInf, num b => if b < 0 then negInf else posInf
  | negInf, num b => if b < 0 then posInf else negInf
  | num _, posInf => num 0
  | num _, negInf => num 0
  | num a, num b =>
    if b = 0 then (if a = 0 then nan else if 0 < a then posInf else negInf)
    else num (a / b)

/-- JS `isNaN`. -/
def isNaN : JSNum → Bool
  | nan => true
  | _ => false

/-- Whether the value is an ordinary finite number. -/
def isFinite : JSNum → Bool
  | num _ => true
  | _ => false

/-- `Math.round`: floor of `x + 1/2` on finite values; NaN and the
infinities pass through. -/
def round : JSNum → JSNum
  | nan => nan
  | posInf => posInf
  | negInf => negInf
  | num q => num ((⌊q + 1/2⌋ : ℤ) : ℚ)

/-- `Math.abs`. -/
def abs : JSNum → JSNum
  | nan => nan
  | posInf => posInf
  | negInf => posInf
  | num q => num |q|

/-- JS `<=` (false whenever either side is NaN). -/
def leb : JSNum → JSNum → Bool
  | nan, _ => false
  | _, nan => false
  | negInf, _ => true
  | _, posInf => true
  | posInf, _ => false
  | num _, negInf => false
  | num a, num b => decide (a ≤ b)

end JSNum

/-- The pixel-to-time conversion of `handleDirectClick` /
`eraseAtPositionNoUpdate`:
`clickedTime = range[0] + (xPixelInPlotArea / length) * (range[1] - range[0])`. -/
def computeClickedTime (r0 r1 xPix len : JSNum) : JSNum :=
  r0.add ((xPix.div len).mul (r1.sub r0))

/-- The caller's guard and index computation: bail out (`return`, no
mutation) when the computed time is NaN, otherwise
`clickedIndex = Math.round(clickedTime * samplingRate)`.  (The source
condition is `clickedTime === undefined || isNaN(clickedTime)`; the
arithmetic never yields `undefined`.) -/
def clickedIndexOpt (r0 r1 xPix len samplingRate : JSNum) : Option JSNum :=
  let t := computeClickedTime r0 r1 xPix len
  if t.isNaN then none else some ((t.mul samplingRate).round)

/-- A segment record over raw JS numbers, used to trace the click handler
on non-finite indices (JS arrays are untyped, so this is the shape the
source actually manipulates). -/
structure SegmentF where
  labeled : Bool
  compression_systolic_points : List JSNum
  compression_diastolic_points : List JSNum
  spontaneous_systolic_points : List JSNum
  spontaneous_diastolic_points : List JSNum
deriving DecidableEq, Repr

/-- The fresh record created by `handleDirectClick` when absent. -/
def emptySegF : SegmentF :=
  { labeled := false
    compression_systolic_points := []
    compression_diastolic_points := []
    spontaneous_systolic_points := []
    spontaneous_diastolic_points := [] }

/-- `Math.abs(idx - clickedIndex) <= TOLERANCE` over JS numbers. -/
def nearTolF (x idx : JSNum) : Bool := (JSNum.abs (idx.sub x)).leb (.num 5)

/-- `findIndex` + `splice` over a JS-number array. -/
def removeFirstF (p : JSNum → Bool) : List JSNum → Option (List JSNum)
  | [] => none
  | e :: es => if p e then some es else (removeFirstF p es).map (e :: ·)

/-- The Normal-mode toggle of `handleDirectClick` over JS numbers: the
scan-all-types splice loop, else push into the currently selected type and
sort ascending (`(a, b) => a - b`), and set `labeled = true`.  The selected
type is taken to be `compression_systolic_points`, the source's
`state.currentLabelType` default. -/
def togglePointF (seg : SegmentF) (x : JSNum) : SegmentF :=
  match removeFirstF (nearTolF x) seg.compression_systolic_points with
  | some l => { seg with compression_systolic_points := l, labeled := true }
  | none =>
  match removeFirstF (nearTolF x) seg.compression_diastolic_points with
  | some l => { seg with compression_diastolic_points := l, labeled := true }
  | none =>
  match removeFirstF (nearTolF x) seg.spontaneous_systolic_points with
  | some l => { seg with spontaneous_systolic_points := l, labeled := true }
  | none =>
  match removeFirstF (nearTolF x) seg.spontaneous_diastolic_points with
  | some l => { seg with spontaneous_diastolic_points := l, labeled := true }
  | none =>
    { seg with
        compression_systolic_points :=
          (seg.compression_systolic_points ++ [x]).insertionSort
            (fun a b => a.leb b = true)
        labeled := true }

/-- Total number of stored points across the four label types. -/
def totalPoints (seg : SegmentLabels) : Nat :=
  seg.compression_systolic_points.length +
  seg.compression_diastolic_points.length +
  seg.spontaneous_systolic_points.length +
  seg.spontaneous_diastolic_points.length

/-- Fixture: a segment with one compression-systolic point near 100. -/
def segNear : SegmentLabels :=
  { defaultSegment with compression_systolic_points := [102] }

/-- Fixture: a segment with one far-away compression-diastolic point. -/
def segFar : SegmentLabels :=
  { defaultSegment with compression_diastolic_points := [20] }

/-- Fixture: a compression-systolic point at distance 5 from index 100 and
a compression-diastolic point exactly at index 100. -/
def segTwo : SegmentLabels :=
  { defaultSegment with
      compression_systolic_points := [105]
      compression_diastolic_points := [100] }

/-- Fixture: an editor in region-selection mode with a pending region
start, wrapped around `segTwo`. -/
def editorTwo : EditorState :=
  { regionSelectionMode := true, regionStart := some 7, eraserActive := false
    seg := segTwo }

/-- Fixture: three compression-systolic points and one
spontaneous-diastolic point, several of them near index 52. -/
def segErase : SegmentLabels :=
  { defaultSegment with
      compression_systolic_points := [10, 50, 58]
      spontaneous_diastolic_points := [55] }

/-! ## Helper lemmas -/

theorem mem_labelTypeOrder (t : LabelType) : t ∈ labelTypeOrder := by
  cases t <;> simp [labelTypeOrder]

theorem nodup_labelTypeOrder : labelTypeOrder.Nodup := by decide

theorem idx_setIdx_self (s : SegmentLabels) (t : LabelType) (l : List Int) :
    (s.setIdx t l).idx t = l := by
  cases t <;> rfl

theorem idx_setIdx_other (s : SegmentLabels) (t : LabelType) (l : List Int)
    (t2 : LabelType) (h : t2 ≠ t) : (s.setIdx t l).idx t2 = s.idx t2 := by
  cases t <;> cases t2 <;>
    simp_all [SegmentLabels.setIdx, SegmentLabels.idx]

theorem idx_withLabeled (s : SegmentLabels) (b : Bool) (t : LabelType) :
    ({ s with labeled := b } : SegmentLabels).idx t = s.idx t := by
  cases t <;> rfl

theorem nearTol_true_iff (tol x e : Int) :
    nearTol tol x e = true ↔ |e - x| ≤ tol := by
  simp [nearTol]

theorem nearTol_false_iff (tol x e : Int) :
    nearTol tol x e = false ↔ ¬(|e - x| ≤ tol) := by
  simp [nearTol]

theorem removeFirst_eq_none_iff (p : Int → Bool) (l : List Int) :
    removeFirst p l = none ↔ ∀ e ∈ l, p e = false := by
  induction l with
  | nil => simp [removeFirst]
  | cons e es ih =>
    by_cases hpe : p e = true
    · simp [removeFirst, hpe]
    · simp only [Bool.not_eq_true] at hpe
      simp [removeFirst, hpe, ih]

theorem removeFirst_some_sublist {p : Int → Bool} :
    ∀ {l l2 : List Int}, removeFirst p l = some l2 → l2.Sublist l := by
  intro l
  induction l with
  | nil => intro l2 h; simp [removeFirst] at h
  | cons e es ih =>
    intro l2 h
    by_cases hpe : p e = true
    · simp [removeFirst, hpe] at h
      subst h
      exact List.sublist_cons_self e es
    · simp only [Bool.not_eq_true] at hpe
      simp [removeFirst, hpe] at h
      obtain ⟨l3, h3, rfl⟩ := h
      exact (ih h3).cons₂ e

theorem removeFirst_some_length {p : Int → Bool} :
    ∀ {l l2 : List Int}, removeFirst p l = some l2 →
      l2.length + 1 = l.length := by
  intro l
  induction l with
  | nil => intro l2 h; simp [removeFirst] at h
  | cons e es ih =>
    intro l2 h
    by_cases hpe : p e = true
    · simp [removeFirst, hpe] at h
      subst h
      simp
    · simp only [Bool.not_eq_true] at hpe
      simp [removeFirst, hpe] at h
      obtain ⟨l3, h3, rfl⟩ := h
      simpa using ih h3

theorem removeFirst_some_exists {p : Int → Bool} :
    ∀ {l l2 : List Int}, removeFirst p l = some l2 → ∃ e ∈ l, p e = true := by
  intro l
  induction l with
  | nil => intro l2 h; simp [removeFirst] at h
  | cons e es ih =>
    intro l2 h
    by_cases hpe : p e = true
    · exact ⟨e, List.mem_cons_self e es, hpe⟩
    · simp only [Bool.not_eq_true] at hpe
      simp [removeFirst, hpe] at h
      obtain ⟨l3, h3, rfl⟩ := h
      obtain ⟨e2, he2, hp2⟩ := ih h3
      exact ⟨e2, List.mem_cons_of_mem e he2, hp2⟩

theorem removeFirst_eq_erase {p : Int → Bool} {x : Int} :
    ∀ {l : List Int}, (∀ e ∈ l, (p e = true ↔ e = x)) → x ∈ l →
      removeFirst p l = some (l.erase x) := by
  intro l
  induction l with
  | nil => intro _ hx; simp at hx
  | cons e es ih =>
    intro hiff hx
    by_cases hex : e = x
    · subst hex
      have hpe : p e = true := (hiff e (List.mem_cons_self e es)).mpr rfl
      simp [removeFirst, hpe, List.erase_cons_head]
    · have hpe : p e = false := by
        rcases Bool.eq_false_or_eq_true (p e) with h | h
        · exact absurd ((hiff e (List.mem_cons_self e es)).mp h) hex
        · exact h
      have hxes : x ∈ es := by
        rcases List.mem_cons.mp hx with h | h
        · exact absurd h.symm hex
        · exact h
      have := ih (fun a ha => hiff a (List.mem_cons_of_mem e ha)) hxes
      simp [removeFirst, hpe, this, List.erase_cons_tail,
        beq_iff_eq, hex]

theorem removeScan_eq_none_iff (tol x : Int) :
    ∀ (ts : List LabelType) (seg : SegmentLabels),
      removeScan tol x ts seg = none ↔
        ∀ t ∈ ts, ∀ e ∈ seg.idx t, nearTol tol x e = false := by
  intro ts
  induction ts with
  | nil => intro seg; simp [removeScan]
  | cons t ts ih =>
    intro seg
    rcases hrf : removeFirst (nearTol tol x) (seg.idx t) with _ | l
    · have hfar := (removeFirst_eq_none_iff _ _).mp hrf
      simp only [removeScan, hrf]
      rw [ih seg]
      constructor
      · intro h t2 ht2 e he
        rcases List.mem_cons.mp ht2 with rfl | ht2
        · exact hfar e he
        · exact h t2 ht2 e he
      · intro h t2 ht2 e he
        exact h t2 (List.mem_cons_of_mem t ht2) e he
    · have ⟨e, he, hpe⟩ := removeFirst_some_exists hrf
      simp only [removeScan, hrf]
      constructor
      · intro h; exact absurd h (by simp)
      · intro h
        have := h t (List.mem_cons_self t ts) e he
        rw [this] at hpe
        exact absurd hpe (by simp)

theorem removeScan_some_spec (tol x : Int) :
    ∀ (ts : List LabelType) (seg : SegmentLabels) (ty : LabelType)
      (seg2 : SegmentLabels), removeScan tol x ts seg = some (ty, seg2) →
      ∃ ts1 ts2 l, ts = ts1 ++ ty :: ts2 ∧
        (∀ t2 ∈ ts1, ∀ e ∈ seg.idx t2, nearTol tol x e = false) ∧
        removeFirst (nearTol tol x) (seg.idx ty) = some l ∧
        seg2 = seg.setIdx ty l := by
  intro ts
  induction ts with
  | nil => intro seg ty seg2 h; simp [removeScan] at h
  | cons t ts ih =>
    intro seg ty seg2 h
    rcases hrf : removeFirst (nearTol tol x) (seg.idx t) with _ | l
    · simp only [removeScan, hrf] at h
      obtain ⟨ts1, ts2, l, hsplit, hfar, hty, hseg⟩ := ih seg ty seg2 h
      refine ⟨t :: ts1, ts2, l, by rw [hsplit]; rfl, ?_, hty, hseg⟩
      intro t2 ht2 e he
      rcases List.mem_cons.mp ht2 with rfl | ht2
      · exact (removeFirst_eq_none_iff _ _).mp hrf e he
      · exact hfar t2 ht2 e he
    · simp only [removeScan, hrf, Option.some.injEq, Prod.mk.injEq] at h
      obtain ⟨rfl, rfl⟩ := h
      exact ⟨[], ts, l, rfl, by simp, hrf, rfl⟩

theorem removeScan_unique (tol x : Int) :
    ∀ (ts : List LabelType) (seg : SegmentLabels) (ty : LabelType)
      (l : List Int), ty ∈ ts →
      (∀ t2 ∈ ts, t2 ≠ ty → ∀ e ∈ seg.idx t2, nearTol tol x e = false) →
      removeFirst (nearTol tol x) (seg.idx ty) = some l →
      removeScan tol x ts seg = some (ty, seg.setIdx ty l) := by
  intro ts
  induction ts with
  | nil => intro seg ty l hmem; simp at hmem
  | cons t ts ih =>
    intro seg ty l hmem hfar hty
    by_cases hth : t = ty
    · subst hth
      simp [removeScan, hty]
    · have hnone : removeFirst (nearTol tol x) (seg.idx t) = none :=
        (removeFirst_eq_none_iff _ _).mpr
          (hfar t (List.mem_cons_self t ts) hth)
      have hmem2 : ty ∈ ts := by
        rcases List.mem_cons.mp hmem with h | h
        · exact absurd h.symm hth
        · exact h
      simp only [removeScan, hnone]
      exact ih seg ty l hmem2
        (fun t2 ht2 => hfar t2 (List.mem_cons_of_mem t ht2)) hty

theorem sortAsc_sorted (l : List Int) : (sortAsc l).Sorted (· ≤ ·) :=
  List.sorted_insertionSort _ l

theorem sortAsc_perm (l : List Int) : (sortAsc l).Perm l :=
  List.perm_insertionSort _ l

theorem sortAsc_pairwise_lt {l : List Int} {x : Int}
    (hl : l.Pairwise (· < ·)) (hx : x ∉ l) :
    (sortAsc (l ++ [x])).Pairwise (· < ·) := by
  have hndl : l.Nodup := hl.imp ne_of_lt
  have hnd : (l ++ [x]).Nodup := by
    rw [List.nodup_append]
    refine ⟨hndl, List.nodup_singleton x, ?_⟩
    intro a hal hax
    rw [List.mem_singleton] at hax
    subst hax
    exact hx hal
  have hnd2 : (sortAsc (l ++ [x])).Nodup := (sortAsc_perm _).nodup_iff.mpr hnd
  exact List.Sorted.lt_of_le (sortAsc_sorted _) hnd2

theorem sortAsc_insert_erase {l : List Int} {x : Int}
    (hl : l.Pairwise (· < ·)) (hx : x ∉ l) :
    (sortAsc (l ++ [x])).erase x = l := by
  have hperm : ((sortAsc (l ++ [x])).erase x).Perm ((l ++ [x]).erase x) :=
    (sortAsc_perm (l ++ [x])).erase x
  have heq : (l ++ [x]).erase x = l := by
    rw [List.erase_append_right _ (by simpa using hx)]
    simp
  rw [heq] at hperm
  have hs1 : ((sortAsc (l ++ [x])).erase x).Sorted (· ≤ ·) :=
    List.Pairwise.sublist (List.erase_sublist x _) (sortAsc_sorted _)
  have hs2 : l.Sorted (· ≤ ·) := hl.imp le_of_lt
  exact List.eq_of_perm_of_sorted hperm hs1 hs2

/-! ## Claim theorems -/

/-- C1: the Normal-mode point toggle first scans all four label types in
their fixed enumeration order for an existing point within `TOLERANCE` of
the click; if one is found it removes exactly one point (from the first
type in iteration order holding a near point) and inserts nothing;
otherwise it inserts the click index into the selected type's list,
re-sorted ascending; in either case the segment's `labeled` flag becomes
true. -/
theorem C1_togglePoint_spec (seg : SegmentLabels) (x : Int) (t : LabelType) :
    ((togglePoint seg x t).seg.labeled = true) ∧
    (∀ ty, (togglePoint seg x t).removed = some ty →
      (∃ e ∈ seg.idx ty, |e - x| ≤ TOLERANCE) ∧
      (∃ ts1 ts2, labelTypeOrder = ts1 ++ ty :: ts2 ∧
        ∀ t2 ∈ ts1, ∀ e ∈ seg.idx t2, ¬(|e - x| ≤ TOLERANCE)) ∧
      ((togglePoint seg x t).seg.idx ty).length + 1 = (seg.idx ty).length ∧
      ((togglePoint seg x t).seg.idx ty).Sublist (seg.idx ty) ∧
      (∀ t2, t2 ≠ ty → (togglePoint seg x t).seg.idx t2 = seg.idx t2)) ∧
    ((togglePoint seg x t).removed = none →
      (∀ ty, ∀ e ∈ seg.idx ty, ¬(|e - x| ≤ TOLERANCE)) ∧
      ((togglePoint seg x t).seg.idx t).Perm (x :: seg.idx t) ∧
      ((togglePoint seg x t).seg.idx t).Sorted (· ≤ ·) ∧
      (∀ t2, t2 ≠ t → (togglePoint seg x t).seg.idx t2 = seg.idx t2)) ∧
    ((∃ ty, ∃ e ∈ seg.idx ty, |e - x| ≤ TOLERANCE) →
      ∃ ty, (togglePoint seg x t).removed = some ty) := by
  rcases hscan : removeScan TOLERANCE x labelTypeOrder seg with _ | ⟨ty0, seg2⟩
  · have hall := (removeScan_eq_none_iff TOLERANCE x labelTypeOrder seg).mp hscan
    refine ⟨by simp [togglePoint, hscan], ?_, ?_, ?_⟩
    · intro ty h
      simp [togglePoint, hscan] at h
    · intro _
      refine ⟨?_, ?_, ?_, ?_⟩
      · intro ty e he
        exact (nearTol_false_iff _ _ _).mp (hall ty (mem_labelTypeOrder ty) e he)
      · simp only [togglePoint, hscan, idx_withLabeled, idx_setIdx_self]
        exact (sortAsc_perm _).trans (List.perm_append_singleton x _)
      · simp only [togglePoint, hscan, idx_withLabeled, idx_setIdx_self]
        exact sortAsc_sorted _
      · intro t2 ht2
        simp only [togglePoint, hscan, idx_withLabeled]
        exact idx_setIdx_other _ _ _ _ ht2
    · rintro ⟨ty, e, he, hnear⟩
      have := hall ty (mem_labelTypeOrder ty) e he
      rw [nearTol_false_iff] at this
      exact absurd hnear this
  · obtain ⟨ts1, ts2, l, hsplit, hfar, hrf, rfl⟩ :=
      removeScan_some_spec TOLERANCE x labelTypeOrder seg ty0 seg2 hscan
    refine ⟨by simp [togglePoint, hscan], ?_, ?_, ?_⟩
    · intro ty h
      simp only [togglePoint, hscan, Option.some.injEq] at h
      subst h
      obtain ⟨e, he, hpe⟩ := removeFirst_some_exists hrf
      refine ⟨⟨e, he, (nearTol_true_iff _ _ _).mp hpe⟩,
        ⟨ts1, ts2, hsplit, ?_⟩, ?_, ?_, ?_⟩
      · intro t2 ht2 e2 he2
        exact (nearTol_false_iff _ _ _).mp (hfar t2 ht2 e2 he2)
      · simp only [togglePoint, hscan, idx_withLabeled, idx_setIdx_self]
        exact removeFirst_some_length hrf
      · simp only [togglePoint, hscan, idx_withLabeled, idx_setIdx_self]
        exact removeFirst_some_sublist hrf
      · intro t2 ht2
        simp only [togglePoint, hscan, idx_withLabeled]
        exact idx_setIdx_other _ _ _ _ ht2
    · intro h
      simp [togglePoint, hscan] at h
    · intro _
      exact ⟨ty0, by simp [togglePoint, hscan]⟩

/-- Witness for C1 at a concrete input: a click at 100 with a stored
compression-systolic point at 102 removes exactly one point. -/
theorem C1_togglePoint_spec_witness :
    ((togglePoint segNear 100 .compression_systolic).seg.idx
        .compression_systolic).length + 1 =
      (segNear.idx .compression_systolic).length ∧
    (∃ e ∈ segNear.idx .compression_systolic, |e - 100| ≤ TOLERANCE) := by
  have h := C1_togglePoint_spec segNear 100 .compression_systolic
  have h2 := h.2.1 .compression_systolic (by decide)
  exact ⟨h2.2.2.1, h2.1⟩

theorem togglePoint_pairwise_lt (seg : SegmentLabels) (x : Int) (t : LabelType)
    (h : ∀ ty, (seg.idx ty).Pairwise (· < ·)) :
    ∀ ty, ((togglePoint seg x t).seg.idx ty).Pairwise (· < ·) := by
  rcases hscan : removeScan TOLERANCE x labelTypeOrder seg with _ | ⟨ty0, seg2⟩
  · intro ty
    by_cases hty : ty = t
    · subst hty
      simp only [togglePoint, hscan, idx_withLabeled, idx_setIdx_self]
      have hall := (removeScan_eq_none_iff TOLERANCE x labelTypeOrder seg).mp hscan
      have hx : x ∉ seg.idx ty := by
        intro hmem
        have := hall ty (mem_labelTypeOrder ty) x hmem
        rw [nearTol_false_iff] at this
        apply this
        simp [TOLERANCE]
      exact sortAsc_pairwise_lt (h ty) hx
    · simp only [togglePoint, hscan, idx_withLabeled,
        idx_setIdx_other _ _ _ _ hty]
      exact h ty
  · obtain ⟨ts1, ts2, l, hsplit, hfar, hrf, rfl⟩ :=
      removeScan_some_spec TOLERANCE x labelTypeOrder seg ty0 seg2 hscan
    intro ty
    by_cases hty : ty = ty0
    · subst hty
      simp only [togglePoint, hscan, idx_withLabeled, idx_setIdx_self]
      exact List.Pairwise.sublist (removeFirst_some_sublist hrf) (h ty)
    · simp only [togglePoint, hscan, idx_withLabeled,
        idx_setIdx_other _ _ _ _ hty]
      exact h ty

theorem applyToggles_pairwise_lt :
    ∀ (ops : List (Int × LabelType)) (seg : SegmentLabels),
      (∀ ty, (seg.idx ty).Pairwise (· < ·)) →
      ∀ ty, ((applyToggles ops seg).idx ty).Pairwise (· < ·) := by
  intro ops
  induction ops with
  | nil => intro seg h ty; exact h ty
  | cons op ops ih =>
    intro seg h ty
    have hstep := togglePoint_pairwise_lt seg op.1 op.2 h
    simpa [applyToggles] using ih (togglePoint seg op.1 op.2).seg hstep ty

/-- C2: starting from a freshly created segment record, after any finite
sequence of Normal-mode point toggles every `label_indexes` list is sorted
ascending and free of duplicates. -/
theorem C2_toggles_sorted_nodup (ops : List (Int × LabelType)) (t : LabelType) :
    ((applyToggles ops defaultSegment).idx t).Sorted (· ≤ ·) ∧
    ((applyToggles ops defaultSegment).idx t).Nodup := by
  have h0 : ∀ ty, ((defaultSegment).idx ty).Pairwise (· < ·) := by
    intro ty
    cases ty <;> simp [defaultSegment, SegmentLabels.idx]
  have key := applyToggles_pairwise_lt ops defaultSegment h0 t
  exact ⟨key.imp le_of_lt, key.imp ne_of_lt⟩

/-- C5: when no existing point of any type lies within `TOLERANCE` of the
click, two consecutive toggles at the same index and type first insert the
point (no removal reported) and then remove it (a removal reported),
restoring all four point lists.  The sortedness hypothesis on the target
list is the data-model invariant (maintained by every toggle, see the C2
theorem). -/
theorem C5_toggle_roundtrip (seg : SegmentLabels) (x : Int) (t : LabelType)
    (hfar : ∀ ty, ∀ e ∈ seg.idx ty, ¬(|e - x| ≤ TOLERANCE))
    (hsorted : (seg.idx t).Pairwise (· < ·)) :
    (togglePoint seg x t).removed = none ∧
    (togglePoint (togglePoint seg x t).seg x t).removed = some t ∧
    (∀ ty, (togglePoint (togglePoint seg x t).seg x t).seg.idx ty
      = seg.idx ty) := by
  have hx_notin : x ∉ seg.idx t := by
    intro hmem
    apply hfar t x hmem
    simp [TOLERANCE]
  have hscan1 : removeScan TOLERANCE x labelTypeOrder seg = none :=
    (removeScan_eq_none_iff TOLERANCE x labelTypeOrder seg).mpr
      (fun ty _ e he => (nearTol_false_iff _ _ _).mpr (hfar ty e he))
  have hseg1 : (togglePoint seg x t).seg
      = { seg.setIdx t (sortAsc (seg.idx t ++ [x])) with labeled := true } := by
    simp [togglePoint, hscan1]
  have hidx_t : (togglePoint seg x t).seg.idx t
      = sortAsc (seg.idx t ++ [x]) := by
    rw [hseg1, idx_withLabeled, idx_setIdx_self]
  have hidx_other : ∀ t2, t2 ≠ t →
      (togglePoint seg x t).seg.idx t2 = seg.idx t2 := by
    intro t2 ht2
    rw [hseg1, idx_withLabeled, idx_setIdx_other _ _ _ _ ht2]
  have hrf2 : removeFirst (nearTol TOLERANCE x)
      ((togglePoint seg x t).seg.idx t) = some (seg.idx t) := by
    rw [hidx_t]
    have hmem_perm := fun e =>
      (sortAsc_perm (seg.idx t ++ [x])).mem_iff (a := e)
    have h1 : ∀ e ∈ sortAsc (seg.idx t ++ [x]),
        (nearTol TOLERANCE x e = true ↔ e = x) := by
      intro e he
      rcases List.mem_append.mp ((hmem_perm e).mp he) with hel | hex
      · constructor
        · intro hne
          exact absurd ((nearTol_true_iff _ _ _).mp hne) (hfar t e hel)
        · intro hex
          subst hex
          exact absurd hel hx_notin
      · rw [List.mem_singleton] at hex
        subst hex
        simp [nearTol_true_iff, TOLERANCE]
    have h2 : x ∈ sortAsc (seg.idx t ++ [x]) := by
      rw [hmem_perm]
      simp
    rw [removeFirst_eq_erase h1 h2, sortAsc_insert_erase hsorted hx_notin]
  have hscan2 : removeScan TOLERANCE x labelTypeOrder (togglePoint seg x t).seg
      = some (t, (togglePoint seg x t).seg.setIdx t (seg.idx t)) := by
    apply removeScan_unique TOLERANCE x labelTypeOrder _ t (seg.idx t)
      (mem_labelTypeOrder t)
    · intro t2 _ ht2 e he
      rw [hidx_other t2 ht2] at he
      exact (nearTol_false_iff _ _ _).mpr (hfar t2 e he)
    · exact hrf2
  have h2 : togglePoint (togglePoint seg x t).seg x t
      = ⟨{ (togglePoint seg x t).seg.setIdx t (seg.idx t) with labeled := true },
         some t⟩ := by
    generalize hg : (togglePoint seg x t).seg = seg1 at hscan2 ⊢
    simp [togglePoint, hscan2]
  refine ⟨by simp [togglePoint, hscan1], by rw [h2], ?_⟩
  intro ty
  rw [h2]
  by_cases hty : ty = t
  · subst hty
    simp only [idx_withLabeled, idx_setIdx_self]
  · simp only [idx_withLabeled, idx_setIdx_other _ _ _ _ hty]
    exact hidx_other ty hty

/-- Witness for C5 at a concrete input: with only a far-away point at 20,
toggling twice at index 100 restores the record's lists. -/
theorem C5_toggle_roundtrip_witness :
    (togglePoint segFar 100 .spontaneous_systolic).removed = none ∧
    (togglePoint (togglePoint segFar 100 .spontaneous_systolic).seg 100
      .spontaneous_systolic).removed = some .spontaneous_systolic ∧
    (∀ ty, (togglePoint (togglePoint segFar 100 .spontaneous_systolic).seg 100
      .spontaneous_systolic).seg.idx ty = segFar.idx ty) :=
  C5_toggle_roundtrip segFar 100 .spontaneous_systolic
    (by intro ty; cases ty <;> decide)
    (by decide)

theorem eraseList_fst (x : Int) (l : List Int) :
    (eraseList x l).1 = l.filter (fun e => !(nearTol ERASER_TOLERANCE x e)) := by
  induction l with
  | nil => rfl
  | cons e es ih =>
    by_cases h : nearTol ERASER_TOLERANCE x e = true
    · simp [eraseList, h, List.filter_cons, ih]
    · simp only [Bool.not_eq_true] at h
      simp [eraseList, h, List.filter_cons, ih]

theorem eraseList_count (x : Int) (l : List Int) :
    (eraseList x l).2 + (eraseList x l).1.length = l.length := by
  induction l with
  | nil => rfl
  | cons e es ih =>
    by_cases h : nearTol ERASER_TOLERANCE x e = true
    · simp [eraseList, h]
      omega
    · simp only [Bool.not_eq_true] at h
      simp [eraseList, h]
      omega

theorem eraseList_of_no_near (x : Int) :
    ∀ l : List Int, (∀ e ∈ l, nearTol ERASER_TOLERANCE x e = false) →
      eraseList x l = (l, 0) := by
  intro l
  induction l with
  | nil => intro _; rfl
  | cons e es ih =>
    intro h
    have he := h e (List.mem_cons_self e es)
    have hes := ih (fun a ha => h a (List.mem_cons_of_mem e ha))
    simp [eraseList, he, hes]

theorem eraseNear_idx (seg : SegmentLabels) (x : Int) (ty : LabelType) :
    (eraseNear seg x).1.idx ty = (eraseList x (seg.idx ty)).1 := by
  cases ty <;> rfl

theorem eraseNear_no_near (seg : SegmentLabels) (x : Int) (ty : LabelType) :
    ∀ e ∈ (eraseNear seg x).1.idx ty, nearTol ERASER_TOLERANCE x e = false := by
  intro e he
  rw [eraseNear_idx, eraseList_fst] at he
  have := (List.mem_filter.mp he).2
  simpa using this

/-- C4: the drag-erase operation removes every point across all four label
types within `ERASER_TOLERANCE` of the position, keeping exactly the far
ones; the count it reports plus the surviving points equals the original
total; erasing again at the same position removes nothing and reports 0;
and the eraser tolerance is strictly wider than the Normal-mode point
tolerance. -/
theorem C4_eraseNear_spec (seg : SegmentLabels) (x : Int) :
    (∀ ty, (eraseNear seg x).1.idx ty
        = (seg.idx ty).filter (fun e => !(nearTol ERASER_TOLERANCE x e))) ∧
    (∀ ty, ∀ e ∈ (eraseNear seg x).1.idx ty,
        ¬(|e - x| ≤ ERASER_TOLERANCE)) ∧
    ((eraseNear seg x).2 + totalPoints (eraseNear seg x).1 = totalPoints seg) ∧
    (eraseNear (eraseNear seg x).1 x = ((eraseNear seg x).1, 0)) ∧
    TOLERANCE < ERASER_TOLERANCE := by
  refine ⟨?_, ?_, ?_, ?_, by decide⟩
  · intro ty
    rw [eraseNear_idx, eraseList_fst]
  · intro ty e he
    exact (nearTol_false_iff _ _ _).mp (eraseNear_no_near seg x ty e he)
  · have h1 := eraseList_count x seg.compression_systolic_points
    have h2 := eraseList_count x seg.compression_diastolic_points
    have h3 := eraseList_count x seg.spontaneous_systolic_points
    have h4 := eraseList_count x seg.spontaneous_diastolic_points
    simp only [eraseNear, totalPoints]
    omega
  · have hz : ∀ ty, eraseList x ((eraseNear seg x).1.idx ty)
        = ((eraseNear seg x).1.idx ty, 0) :=
      fun ty => eraseList_of_no_near x _ (eraseNear_no_near seg x ty)
    have hcs := hz .compression_systolic
    have hcd := hz .compression_diastolic
    have hss := hz .spontaneous_systolic
    have hsd := hz .spontaneous_diastolic
    simp only [eraseNear_idx, SegmentLabels.idx] at hcs hcd hss hsd
    show eraseNear (eraseNear seg x).1 x = ((eraseNear seg x).1, 0)
    simp only [eraseNear] at hcs hcd hss hsd ⊢
    rw [hcs, hcd, hss, hsd]
    simp

/-- Witness for C4 at a concrete input: erasing at index 52 leaves only far
points, and an immediately repeated erase removes nothing and reports 0. -/
theorem C4_eraseNear_spec_witness :
    ¬(|(10 : Int) - 52| ≤ ERASER_TOLERANCE) ∧
    eraseNear (eraseNear segErase 52).1 52 = ((eraseNear segErase 52).1, 0) := by
  have h := C4_eraseNear_spec segErase 52
  exact ⟨h.2.1 .compression_systolic 10 (by decide), h.2.2.2.1⟩

/-- C3: when the per-call timeout fires for a still-pending call id, that
call is rejected with the timeout error and its pending entry removed; the
pending status of every other id is untouched; and a response arriving for
the same id afterwards is silently ignored (the state, including the
settlement log, does not change, so the promise is never settled twice).
The armed delay is the source's 30000 ms. -/
theorem C3_timeout_spec (st : BridgeState) (id : Nat) (isErr : Bool)
    (h : id ∈ st.pending) :
    (fireTimeout st id).settled = (id, .rejectedTimeout) :: st.settled ∧
    id ∉ (fireTimeout st id).pending ∧
    (∀ j, j ≠ id → ((j ∈ (fireTimeout st id).pending) ↔ j ∈ st.pending)) ∧
    handleMessage (fireTimeout st id) id isErr = fireTimeout st id ∧
    TIMEOUT_MS = 30000 := by
  have hnot : id ∉ (fireTimeout st id).pending := by
    simp [fireTimeout, h]
  refine ⟨by simp [fireTimeout, h], hnot, ?_, ?_, rfl⟩
  · intro j hj
    simp [fireTimeout, h, Finset.mem_erase, hj]
  · simp [handleMessage, hnot]

/-- Witness for C3 at a concrete input: one issued call that times out. -/
theorem C3_timeout_spec_witness :
    (fireTimeout (bridgeCall ⟨0, ∅, []⟩).1 0).settled
        = [(0, .rejectedTimeout)] ∧
    handleMessage (fireTimeout (bridgeCall ⟨0, ∅, []⟩).1 0) 0 false
        = fireTimeout (bridgeCall ⟨0, ∅, []⟩).1 0 := by
  have h := C3_timeout_spec (bridgeCall ⟨0, ∅, []⟩).1 0 false (by decide)
  exact ⟨h.1, h.2.2.2.1⟩

/-- C6: after a mutation marks the labels dirty, an explicit flush that
runs before the debounce timer fires performs exactly one persistence call
and cancels the pending timer, after which no timer firing (in particular
not the canceled one) performs another save.  The debounce delay is the
source's 2000 ms. -/
theorem C6_flush_once (st : SchedState) (ok ok2 : Bool) (tid : Nat)
    (hfile : st.fileOpen = true) :
    (saveIfDirty (markLabelsDirty st) ok).saveCount = st.saveCount + 1 ∧
    (saveIfDirty (markLabelsDirty st) ok).autoSaveTimeout = none ∧
    autoSaveFire (saveIfDirty (markLabelsDirty st) ok) tid ok2
      = saveIfDirty (markLabelsDirty st) ok ∧
    AUTOSAVE_DEBOUNCE_MS = 2000 := by
  have h1 : saveIfDirty (markLabelsDirty st) ok
      = doSave ok { markLabelsDirty st with autoSaveTimeout := none } := by
    simp [saveIfDirty, markLabelsDirty, scheduleAutoSave, hfile]
  refine ⟨?_, ?_, ?_, rfl⟩
  · rw [h1]
    simp [doSave, markLabelsDirty, scheduleAutoSave]
  · rw [h1]
    simp [doSave]
  · have h2 : (saveIfDirty (markLabelsDirty st) ok).autoSaveTimeout = none := by
      rw [h1]; simp [doSave]
    simp [autoSaveFire, h2]

/-- Witness for C6 at a concrete input: a fresh open-file state. -/
theorem C6_flush_once_witness :
    (saveIfDirty (markLabelsDirty ⟨false, true, none, 0, 0⟩) true).saveCount
      = 1 ∧
    autoSaveFire (saveIfDirty (markLabelsDirty ⟨false, true, none, 0, 0⟩) true)
        0 true
      = saveIfDirty (markLabelsDirty ⟨false, true, none, 0, 0⟩) true := by
  have h := C6_flush_once ⟨false, true, none, 0, 0⟩ true true 0 rfl
  exact ⟨h.1, h.2.2.1⟩

/-- The done/review exclusion invariant: the file is not simultaneously
marked done and flagged (via some segment) for review. -/
def rdInv (st : ReviewDoneState) : Prop :=
  ¬(st.done = true ∧ st.reviewSegs.Nonempty)

theorem rdInv_toggleReview (st : ReviewDoneState) (seg : Nat)
    (h : rdInv st) : rdInv (toggleReview st seg) := by
  rcases hd : st.done with _ | _
  · unfold rdInv toggleReview
    rcases hmem : decide (seg ∈ st.reviewSegs) with _ | _ <;>
      simp_all [rdInv]
  · have hemp : ¬st.reviewSegs.Nonempty := fun hne => h ⟨hd, hne⟩
    have hnm : seg ∉ st.reviewSegs := fun hm => hemp ⟨seg, hm⟩
    unfold toggleReview
    rw [if_pos ⟨hd, hnm⟩]
    exact h

theorem rdInv_toggleDone (st : ReviewDoneState) (h : rdInv st) :
    rdInv (toggleDone st) := by
  rcases hd : st.done with _ | _
  · by_cases hne : st.reviewSegs.Nonempty
    · unfold toggleDone
      rw [if_pos ⟨hd, hne⟩]
      exact h
    · unfold rdInv toggleDone
      rw [if_neg (fun hc => hne hc.2)]
      intro hc
      exact hne hc.2
  · unfold rdInv toggleDone
    rw [if_neg (fun hc => by rw [hd] at hc; exact absurd hc.1 (by simp))]
    intro hc
    rw [hd] at hc
    simp at hc

/-- C7: while the file is done, turning a segment's review flag on is
rejected with no state change, while turning it off is accepted; a file
with a review-flagged segment cannot be marked done; hence the
done/review exclusion is preserved by every sequence of toggles. -/
theorem C7_review_done (st : ReviewDoneState) (seg : Nat) (ops : List RDOp) :
    (st.done = true → seg ∉ st.reviewSegs → toggleReview st seg = st) ∧
    (st.done = true → seg ∈ st.reviewSegs →
      toggleReview st seg
        = { st with reviewSegs := st.reviewSegs.erase seg }) ∧
    (st.done = false → st.reviewSegs.Nonempty → toggleDone st = st) ∧
    (rdInv st → rdInv (applyRDOps ops st)) := by
  refine ⟨?_, ?_, ?_, ?_⟩
  · intro hd hnm
    unfold toggleReview
    rw [if_pos ⟨hd, hnm⟩]
  · intro hd hm
    unfold toggleReview
    rw [if_neg (fun hc => hc.2 hm), if_pos hm]
  · intro hd hne
    unfold toggleDone
    rw [if_pos ⟨hd, hne⟩]
  · intro hinv
    induction ops generalizing st with
    | nil => exact hinv
    | cons op ops ih =>
      rcases op with seg2 | _
      · exact ih _ (rdInv_toggleReview st seg2 hinv)
      · exact ih _ (rdInv_toggleDone st hinv)

/-- Witness for C7 at concrete inputs: review-on blocked on a done file,
review-off accepted on a done file, done blocked on a reviewed file, and
the exclusion invariant holds after a toggle sequence. -/
theorem C7_review_done_witness :
    toggleReview ⟨true, ∅⟩ 0 = ⟨true, ∅⟩ ∧
    toggleReview ⟨true, {1}⟩ 1 = ⟨true, ({1} : Finset ℕ).erase 1⟩ ∧
    toggleDone ⟨false, {2}⟩ = ⟨false, {2}⟩ ∧
    rdInv (applyRDOps [.review 0, .flipDone] ⟨false, ∅⟩) := by
  refine ⟨(C7_review_done ⟨true, ∅⟩ 0 []).1 rfl (by decide),
    (C7_review_done ⟨true, {1}⟩ 1 []).2.1 rfl (by decide),
    (C7_review_done ⟨false, {2}⟩ 0 []).2.2.1 rfl ⟨2, by decide⟩,
    (C7_review_done ⟨false, ∅⟩ 0 [.review 0, .flipDone]).2.2.2 ?_⟩
  intro hc
  exact absurd hc.2 (by simp)

/-- C8 counterexample: right-clicking at index 100 with a
compression-systolic point at 105 (distance 5) and a compression-diastolic
point at 100 (distance 0) removes the point at 105, not the nearest one —
the strictly nearer point at 100 survives.  So the gesture removes the
first in-tolerance point in type-iteration order, not the nearest point. -/
theorem C8_not_nearest_counterexample :
    (rightClickRemove segTwo 100).2 = some .compression_systolic ∧
    (rightClickRemove segTwo 100).1.idx .compression_systolic = [] ∧
    (rightClickRemove segTwo 100).1.idx .compression_diastolic = [100] ∧
    |(100 : Int) - 100| < |(105 : Int) - 100| := by
  decide

/-- C8 amended: in every editing mode the right-click gesture leaves the
Eraser and RegionSelect state untouched and removes at most one point; what
it removes is the first point within the Normal-mode `TOLERANCE` by
type-iteration order (not necessarily the nearest); with no point in
tolerance it changes nothing. -/
theorem C8_rightclick_spec (st : EditorState) (x : Int) :
    (handleRightClick st x).regionSelectionMode = st.regionSelectionMode ∧
    (handleRightClick st x).regionStart = st.regionStart ∧
    (handleRightClick st x).eraserActive = st.eraserActive ∧
    (totalPoints (handleRightClick st x).seg + 1 = totalPoints st.seg ∨
      (handleRightClick st x).seg = st.seg) ∧
    (∀ ty, (rightClickRemove st.seg x).2 = some ty →
      (∃ e ∈ st.seg.idx ty, |e - x| ≤ TOLERANCE) ∧
      (∃ ts1 ts2, labelTypeOrder = ts1 ++ ty :: ts2 ∧
        ∀ t2 ∈ ts1, ∀ e ∈ st.seg.idx t2, ¬(|e - x| ≤ TOLERANCE))) ∧
    ((rightClickRemove st.seg x).2 = none →
      (handleRightClick st x).seg = st.seg) := by
  rcases hscan : removeScan TOLERANCE x labelTypeOrder st.seg with _ | ⟨ty0, seg2⟩
  · have hid : (handleRightClick st x).seg = st.seg := by
      simp [handleRightClick, rightClickRemove, hscan]
    refine ⟨by simp [handleRightClick], by simp [handleRightClick],
      by simp [handleRightClick], Or.inr hid, ?_, fun _ => hid⟩
    intro ty h
    simp [rightClickRemove, hscan] at h
  · obtain ⟨ts1, ts2, l, hsplit, hfar, hrf, rfl⟩ :=
      removeScan_some_spec TOLERANCE x labelTypeOrder st.seg ty0 seg2 hscan
    have hlen := removeFirst_some_length hrf
    refine ⟨by simp [handleRightClick], by simp [handleRightClick],
      by simp [handleRightClick], Or.inl ?_, ?_, ?_⟩
    · have hseg : (handleRightClick st x).seg
          = { st.seg.setIdx ty0 l with labeled := true } := by
        simp [handleRightClick, rightClickRemove, hscan]
      rw [hseg]
      revert hlen
      cases ty0 <;>
        simp [totalPoints, SegmentLabels.setIdx, SegmentLabels.idx] <;>
        omega
    · intro ty h
      simp only [rightClickRemove, hscan, Option.some.injEq] at h
      subst h
      obtain ⟨e, he, hpe⟩ := removeFirst_some_exists hrf
      refine ⟨⟨e, he, (nearTol_true_iff _ _ _).mp hpe⟩,
        ⟨ts1, ts2, hsplit, ?_⟩⟩
      intro t2 ht2 e2 he2
      exact (nearTol_false_iff _ _ _).mp (hfar t2 ht2 e2 he2)
    · intro h
      simp [rightClickRemove, hscan] at h

/-- Witness for C8 at a concrete input: a right-click in region-selection
mode leaves the mode flags untouched and removes exactly one point. -/
theorem C8_rightclick_spec_witness :
    (handleRightClick editorTwo 100).regionSelectionMode = true ∧
    (handleRightClick editorTwo 100).regionStart = some 7 ∧
    (handleRightClick editorTwo 100).eraserActive = false ∧
    (∃ e ∈ editorTwo.seg.idx .compression_systolic, |e - 100| ≤ TOLERANCE) := by
  have h := C8_rightclick_spec editorTwo 100
  have h5 := h.2.2.2.2.1 .compression_systolic (by decide)
  exact ⟨h.1, h.2.1, h.2.2.1, h5.1⟩

/-- C9 counterexample: a click at pixel offset 10 when the plot area width
is 0 (not positive).  The computed time is `+Infinity` — not finite — yet
the conversion does not yield the sentinel (only NaN is guarded), and the
click handler proceeds to mutate the label state, inserting the non-finite
index.  (`0 / 0` would give NaN and be caught; `10 / 0` gives Infinity and
is not.) -/
theorem C9_nonfinite_counterexample :
    computeClickedTime (.num 0) (.num 10) (.num 10) (.num 0) = .posInf ∧
    (computeClickedTime (.num 0) (.num 10) (.num 10) (.num 0)).isFinite
      = false ∧
    clickedIndexOpt (.num 0) (.num 10) (.num 10) (.num 0) (.num 250)
      = some .posInf ∧
    togglePointF emptySegF .posInf ≠ emptySegF ∧
    (togglePointF emptySegF .posInf).compression_systolic_points
      = [.posInf] := by
  have ht : computeClickedTime (.num 0) (.num 10) (.num 10) (.num 0)
      = .posInf := by
    norm_num [computeClickedTime, JSNum.add, JSNum.sub, JSNum.neg, JSNum.mul,
      JSNum.div]
  have hidx : clickedIndexOpt (.num 0) (.num 10) (.num 10) (.num 0) (.num 250)
      = some .posInf := by
    norm_num [clickedIndexOpt, computeClickedTime, JSNum.add, JSNum.sub,
      JSNum.neg, JSNum.mul, JSNum.div, JSNum.isNaN, JSNum.round]
  refine ⟨ht, by rw [ht]; rfl, hidx, ?_, by decide⟩
  intro h
  have : (togglePointF emptySegF .posInf).labeled = emptySegF.labeled := by
    rw [h]
  exact absurd this (by decide)

/-- C9 amended: the conversion never throws, and the caller no-ops exactly
when the computed time is NaN (for example a zero pixel offset over a zero
plot width); a non-finite non-NaN time, as produced by a non-positive plot
width with nonzero pixel offset, passes the guard and the caller goes on to
mutate the label state. -/
theorem C9_nan_guard (r0 r1 xPix len sr : JSNum)
    (h : (computeClickedTime r0 r1 xPix len).isNaN = true) :
    clickedIndexOpt r0 r1 xPix len sr = none := by
  simp [clickedIndexOpt, h]

/-- Witness for C9 at a concrete input: a zero pixel offset over a zero
plot width computes `0 / 0 = NaN` and the caller no-ops. -/
theorem C9_nan_guard_witness :
    clickedIndexOpt (.num 0) (.num 10) (.num 0) (.num 0) (.num 250) = none :=
  C9_nan_guard (.num 0) (.num 10) (.num 0) (.num 0) (.num 250) (by decide)

theorem eraseMany_foldl_labeled :
    ∀ (xs : List Int) (seg : SegmentLabels) (n : Nat),
      ((xs.foldl (fun acc x =>
        let r := eraseNear acc.1 x
        (r.1, acc.2 + r.2)) (seg, n)).1).labeled = seg.labeled := by
  intro xs
  induction xs with
  | nil => intro seg n; rfl
  | cons x xs ih =>
    intro seg n
    exact ih (eraseNear seg x).1 (n + (eraseNear seg x).2)

theorem eraseMany_labeled (seg : SegmentLabels) (xs : List Int) :
    (eraseMany seg xs).1.labeled = seg.labeled :=
  eraseMany_foldl_labeled xs seg 0

/-- C10: the `labeled` flag is monotone across the editing operations, and
every point-removal path sets it: a Normal-mode toggle always sets it (both
branches); a right-click sets it whenever it removed a point and otherwise
changes nothing; an eraser sweep sets it whenever it removed at least one
point (even if the lists end up empty) and otherwise leaves it unchanged. -/
theorem C10_labeled_monotone (seg : SegmentLabels) (x : Int) (t : LabelType)
    (xs : List Int) :
    (togglePoint seg x t).seg.labeled = true ∧
    ((rightClickRemove seg x).2 = none → (rightClickRemove seg x).1 = seg) ∧
    ((rightClickRemove seg x).2 ≠ none →
      (rightClickRemove seg x).1.labeled = true) ∧
    (0 < (eraseMany seg xs).2 → (eraserSweep seg xs).labeled = true) ∧
    ((eraseMany seg xs).2 = 0 → (eraserSweep seg xs).labeled = seg.labeled) ∧
    (seg.labeled = true → (eraserSweep seg xs).labeled = true) := by
  refine ⟨?_, ?_, ?_, ?_, ?_, ?_⟩
  · rcases hscan : removeScan TOLERANCE x labelTypeOrder seg with _ | ⟨ty0, seg2⟩ <;>
      simp [togglePoint, hscan]
  · intro h
    rcases hscan : removeScan TOLERANCE x labelTypeOrder seg with _ | ⟨ty0, seg2⟩ <;>
      simp [rightClickRemove, hscan] at h ⊢
  · intro h
    rcases hscan : removeScan TOLERANCE x labelTypeOrder seg with _ | ⟨ty0, seg2⟩ <;>
      simp [rightClickRemove, hscan] at h ⊢
  · intro h
    simp [eraserSweep, h]
  · intro h
    simp [eraserSweep, h, eraseMany_labeled]
  · intro h
    by_cases hpos : 0 < (eraseMany seg xs).2
    · simp [eraserSweep, hpos]
    · have hz : (eraseMany seg xs).2 = 0 := by omega
      simp [eraserSweep, hz, eraseMany_labeled, h]

/-- Witness for C10 at a concrete input: erasing the only stored point
leaves every list empty yet sets `labeled`. -/
theorem C10_labeled_monotone_witness :
    (togglePoint segErase 300 .compression_diastolic).seg.labeled = true ∧
    (eraserSweep segErase [10, 50, 58, 55]).labeled = true := by
  have h := C10_labeled_monotone segErase 300 .compression_diastolic
    [10, 50, 58, 55]
  exact ⟨h.1, h.2.2.2.1 (by decide)⟩

end Labeler
